import Mathlib

/-!
Verification of the concurrent-image-processor core against its
specification.  The pixel filters, row splitter/joiner, row fan-out logic,
batch collection loop and worker-pool shutdown sequence are shallowly
embedded from the Go sources (`internal/processor/filters.go`,
`internal/processor/worker.go`, the processor/orchestrator file and the
`models` package).

Machine arithmetic is modelled explicitly:

* `uint8` values are natural numbers below 256; the wrapping subtraction
  that Go performs inside `ApplyContrast` (`src[i]-128` evaluated in
  `uint8` before the `float64` conversion) is modelled with `% 256`.
* The `float64` grayscale computation is modelled exactly: every value
  occurring in `0.299*r + 0.587*g + 0.114*b` (with `r,g,b` integers in
  `[0,255]`) is a dyadic rational that is an integer multiple of `2⁻⁵⁶`,
  so a value is represented as its integer numerator at scale `2⁵⁶`.
  The decimal literals become the exact binary64 constants
  `0.299 = 5386305154335113·2⁻⁵⁴`, `0.587 = 2643612981266481·2⁻⁵²`,
  `0.114 = 8214565720323785·2⁻⁵⁶`, and each `float64` operation is the
  exact integer operation followed by `flN`, the binary64 rounding
  (53-bit significand, round half to even).  Products `c·r` and the
  scaled sums stay below `2⁶⁴`, far inside the normal binary64 range, so
  neither overflow nor subnormals arise and `flN` is exactly the IEEE
  rounding of these values.
* `ApplyBlur` accumulates channel sums in `float64`, but every partial
  sum is an integer below `2⁵³` for any realistic image, where binary64
  addition of integers is exact; the final `uint8(sum/count)` truncation
  of the correctly rounded quotient coincides with integer division for
  any `count < 2⁴⁵`.  The blur embedding therefore uses exact natural
  arithmetic.
-/

/-- Fuel-driven bit length: `bitlenAux fuel n` is the number of binary
digits of `n`, provided `n ≤ fuel`.  Written with structural recursion on
the fuel so that the kernel can evaluate it (Lean's `Nat.log2` is
well-founded recursion, which `decide` cannot reduce). -/
def bitlenAux : ℕ → ℕ → ℕ
  | 0, _ => 0
  | fuel + 1, n => if n = 0 then 0 else bitlenAux fuel (n / 2) + 1

/-- Number of binary digits of `n`: `0` for `n = 0`, otherwise the unique
`b` with `2 ^ (b - 1) ≤ n < 2 ^ b`. -/
def bitlen (n : ℕ) : ℕ := bitlenAux n n

/-- Round `n / 2 ^ s` to the nearest integer (ties to even) and scale the
result back up by `2 ^ s`: the significand-truncation step of binary64
rounding, for `s ≥ 1`. -/
def rheShift (n s : ℕ) : ℕ :=
  let q := n / 2 ^ s
  let r := n % 2 ^ s
  let half := 2 ^ s / 2
  (if r < half then q else if half < r then q + 1
   else if q % 2 = 0 then q else q + 1) * 2 ^ s

/-- Binary64 rounding of a nonnegative dyadic value represented by its
numerator at a fixed power-of-two scale: keep the 53 most significant
bits, rounding half to even.  Values with at most 53 significant bits are
exactly representable and unchanged. -/
def flN (n : ℕ) : ℕ :=
  if bitlen n ≤ 53 then n else rheShift n (bitlen n - 53)

/-- Exact binary64 value of the Go literal `0.299`, scaled by `2 ^ 56`. -/
def c299n : ℕ := 21545220617340452

/-- Exact binary64 value of the Go literal `0.587`, scaled by `2 ^ 56`. -/
def c587n : ℕ := 42297807700263696

/-- Exact binary64 value of the Go literal `0.114`, scaled by `2 ^ 56`. -/
def c114n : ℕ := 8214565720323785

/-- Per-pixel gray value of `ApplyGrayScale` (filters.go line 34):
`uint8(0.299*r + 0.587*g + 0.114*b)` with the multiplications and the two
additions evaluated left to right in binary64, and the final conversion
truncating toward zero.  All values are carried at scale `2 ^ 56` and
every `float64` operation is modelled as the exact operation followed by
binary64 rounding `flN`. -/
def grayGo (r g b : ℕ) : ℕ :=
  flN (flN (flN (c299n * r) + flN (c587n * g)) + flN (c114n * b)) / 2 ^ 56

example : grayGo 10 20 30 = 18 := by decide
example : grayGo 40 50 60 = 48 := by decide
example : grayGo 1 1 1 = 0 := by decide
example : grayGo 0 0 9 = 1 := by decide
set_option maxRecDepth 4000 in
example : ∀ v : Fin 256, grayGo v v v = v ∨ grayGo v v v + 1 = (v : ℕ) := by decide

/-- Numeric filter knobs of `models.FilterParams`.  The three `float64`
fields are modelled as the exact rational values of the floats; `Quality`
is an `int`.  (`Quality` only reaches the external encoder and never
enters the verified arithmetic.) -/
structure FilterParams where
  blurRadius : ℚ
  brightness : ℚ
  contrast : ℚ
  quality : ℤ
deriving DecidableEq

/-- The helper `clamp` of filters.go (lines 202-204):
`math.Max(0, math.Min(255, value))`, exact on rationals. -/
def clampGo (v : ℚ) : ℚ := max 0 (min 255 v)

/-- Go's `uint8(f)` conversion of a `float64` that lies in `[0, 256)`:
truncation toward zero.  Every conversion site in the filters feeds a
clamped or otherwise in-range value. -/
def goUint8Q (q : ℚ) : ℕ := (⌊q⌋).toNat

/-- Go's `int(f)` conversion of a `float64`: truncation toward zero. -/
def goIntTrunc (q : ℚ) : ℤ := if 0 ≤ q then ⌊q⌋ else -⌊-q⌋

/-- Body of the `ApplyGrayScale` loop (filters.go lines 28-40): the input
is consumed four bytes at a time; R, G and B are replaced by the gray
value and A is copied.  The final non-chunk case is only reached by the
empty list when the length is a multiple of four. -/
def grayLoop : List ℕ → List ℕ
  | r :: g :: b :: a :: rest =>
      grayGo r g b :: grayGo r g b :: grayGo r g b :: a :: grayLoop rest
  | l => l

/-- `ApplyGrayScale` (filters.go lines 21-43): buffers whose length is not
a multiple of four are returned unchanged; otherwise each RGBA pixel is
mapped to `(gray, gray, gray, a)`. -/
def applyGrayScale (src : List ℕ) (width : ℕ) (params : FilterParams) : List ℕ :=
  if src.length % 4 ≠ 0 then src else grayLoop src

/-- Per-channel brightness transform (filters.go lines 54-56):
`uint8(clamp(float64(c) * factor))`.  The multiplication is modelled as
the exact rational product; all statements proved about brightness are
either independent of the factor or instantiate it at values where
binary64 arithmetic is exact. -/
def brightByte (factor : ℚ) (c : ℕ) : ℕ := goUint8Q (clampGo ((c : ℚ) * factor))

/-- Body of the `ApplyBrightness` loop (filters.go lines 53-63). -/
def brightLoop (factor : ℚ) : List ℕ → List ℕ
  | r :: g :: b :: a :: rest =>
      brightByte factor r :: brightByte factor g :: brightByte factor b :: a ::
        brightLoop factor rest
  | l => l

/-- `ApplyBrightness` (filters.go lines 45-66). -/
def applyBrightness (src : List ℕ) (width : ℕ) (params : FilterParams) : List ℕ :=
  if src.length % 4 ≠ 0 then src else brightLoop params.brightness src

/-- Per-channel contrast transform (filters.go line 77):
`uint8(clamp((float64(c-128) * factor) + 128))`.  The subtraction `c-128`
is evaluated in `uint8` arithmetic BEFORE the `float64` conversion, so it
wraps modulo 256: for `c < 256` the Go operand `uint8(c-128)` equals
`(c + 128) % 256`.  The multiplication by the factor is modelled as the
exact rational product (exact in binary64 for the factor `1.0` used in
the evaluated statements). -/
def contrastByte (factor : ℚ) (c : ℕ) : ℕ :=
  goUint8Q (clampGo ((((c + 128) % 256 : ℕ) : ℚ) * factor + 128))

/-- Body of the `ApplyContrast` loop (filters.go lines 76-86). -/
def contrastLoop (factor : ℚ) : List ℕ → List ℕ
  | r :: g :: b :: a :: rest =>
      contrastByte factor r :: contrastByte factor g :: contrastByte factor b :: a ::
        contrastLoop factor rest
  | l => l

/-- `ApplyContrast` (filters.go lines 68-89). -/
def applyContrast (src : List ℕ) (width : ℕ) (params : FilterParams) : List ℕ :=
  if src.length % 4 ≠ 0 then src else contrastLoop params.contrast src

example : applyContrast [200, 50, 10, 255] 1 ⟨0, 0, 1, 0⟩ = [200, 255, 255, 255] := by
  norm_num [applyContrast, contrastLoop, contrastByte, clampGo, goUint8Q, max_def, min_def]
  decide
example : applyGrayScale [10, 20, 30, 255, 40, 50, 60, 0] 2 ⟨0, 0, 0, 0⟩ =
    [18, 18, 18, 255, 48, 48, 48, 0] := by decide

/-- Offsets `-radius .. radius` of the blur sampling loops
(filters.go lines 116-117), in loop order. -/
def blurOffsets (radius : ℕ) : List ℤ :=
  (List.range (2 * radius + 1)).map (fun d => (d : ℤ) - radius)

/-- In-bounds samples of channel `c` in the `(2·radius+1)²` window around
pixel `(x, y)` (filters.go lines 116-128), in loop order: for each
in-bounds neighbour `(nx, ny)` the byte `src[(ny*width+nx)*4 + c]` is
collected; out-of-bounds positions contribute nothing.  The Go loop adds
these bytes to a `float64` accumulator and counts them; since they are
integers with sum below `2⁵³`, the accumulation is exact, so the sum and
length of this list are exactly the loop's `r/g/b/a` and `count`. -/
def blurSamples (src : List ℕ) (width height x y c radius : ℕ) : List ℕ :=
  (blurOffsets radius).flatMap (fun dy =>
    (blurOffsets radius).filterMap (fun dx =>
      let nx := (x : ℤ) + dx
      let ny := (y : ℤ) + dy
      if 0 ≤ nx ∧ nx < width ∧ 0 ≤ ny ∧ ny < height then
        some (src.getD ((ny.toNat * width + nx.toNat) * 4 + c) 0)
      else none))

/-- `ApplyBlur` (filters.go lines 91-141).  Faithfulness notes:

* `height := len(src) / (width*4)` uses Go integer division; at
  `width = 0` the Go program panics with a division by zero, so all
  statements about blur assume `0 < width` (Lean's `n / 0 = 0` would
  otherwise take the `height = 0` early return).
* `radius := int(params.BlurRadius)` truncates toward zero; for
  `radius <= 0` the code copies `src` into `dst` and returns it, a buffer
  equal to the input.
* The `y`/`x` loops write each index `(y*width + x)*4 + ch` with
  `y < height`, `x < width`, `ch < 4` exactly once; positions of `dst`
  beyond `height*width*4` (present only when `len(src)` is not a multiple
  of `width*4`) keep the zero from `make`.  The embedding states that
  write directly, indexed by `i`.
* `count > 0` always holds in the guarded block since the centre pixel is
  in bounds, and `uint8(sum/count)` is the truncated quotient, which for
  exact integer sums equals natural division (exact for every
  `count < 2⁴⁵`; see the header note). -/
def applyBlur (src : List ℕ) (width : ℕ) (params : FilterParams) : List ℕ :=
  if src.length % 4 ≠ 0 then src
  else
    let height := src.length / (width * 4)
    if height = 0 then src
    else
      let radius := goIntTrunc params.blurRadius
      if radius ≤ 0 then src
      else
        (List.range src.length).map (fun i =>
          let p := i / 4
          let c := i % 4
          let y := p / width
          let x := p % width
          if y < height then
            let samples := blurSamples src width height x y c radius.toNat
            samples.sum / samples.length
          else 0)

/-- The global `FilterRegistry` of filters.go (lines 14-19): a map from
the four `models.FilterType` identifiers to the transform functions;
every other identifier is absent. -/
def FilterRegistry (name : String) :
    Option (List ℕ → ℕ → FilterParams → List ℕ) :=
  if name = "blur" then some applyBlur
  else if name = "brightness" then some applyBrightness
  else if name = "contrast" then some applyContrast
  else if name = "grayscale" then some applyGrayScale
  else none

example : FilterRegistry "sepia" = none := rfl
example :
    applyBlur [8, 8, 8, 8, 0, 0, 0, 0] 2 ⟨1, 0, 0, 0⟩ = [4, 4, 4, 4, 4, 4, 4, 4] := by
  norm_num [applyBlur, goIntTrunc]
  decide

/-- Model of Go's `image.RGBA`: the `Pix` byte slice is modelled as a
total map from integer offsets to byte values (all accesses made by the
embedded functions are guarded to lie inside the rectangle, mirroring the
bounds checks of the Go methods), together with the stride and the
rectangle `Rect`.  For images produced by `image.NewRGBA` the stride
equals `4*Dx`; theorems that need this state it as a hypothesis. -/
structure GoRGBA where
  pix : ℤ → ℕ
  stride : ℤ
  minX : ℤ
  minY : ℤ
  maxX : ℤ
  maxY : ℤ

/-- `Rectangle.Dx`: width of the image rectangle. -/
def GoRGBA.Dx (img : GoRGBA) : ℤ := img.maxX - img.minX

/-- `Rectangle.Dy`: height of the image rectangle. -/
def GoRGBA.Dy (img : GoRGBA) : ℤ := img.maxY - img.minY

/-- `RGBA.PixOffset`: byte offset of pixel `(x, y)` inside `Pix`. -/
def pixOffset (img : GoRGBA) (x y : ℤ) : ℤ :=
  (y - img.minY) * img.stride + (x - img.minX) * 4

/-- `Point{x, y}.In(img.Rect)`. -/
def inRect (img : GoRGBA) (x y : ℤ) : Bool :=
  img.minX ≤ x && x < img.maxX && img.minY ≤ y && y < img.maxY

/-- `RGBA.RGBAAt`: the four bytes of pixel `(x, y)`, or the zero color
for a point outside the rectangle. -/
def rgbaAt (img : GoRGBA) (x y : ℤ) : ℕ × ℕ × ℕ × ℕ :=
  if inRect img x y then
    let o := pixOffset img x y
    (img.pix o, img.pix (o + 1), img.pix (o + 2), img.pix (o + 3))
  else (0, 0, 0, 0)

/-- `RGBA.SetRGBA`: writes the four bytes of pixel `(x, y)`; a no-op for
a point outside the rectangle. -/
def setRGBA (img : GoRGBA) (x y : ℤ) (r g b a : ℕ) : GoRGBA :=
  if inRect img x y then
    let o := pixOffset img x y
    { img with pix := fun j =>
        if j = o then r else if j = o + 1 then g
        else if j = o + 2 then b else if j = o + 3 then a
        else img.pix j }
  else img

/-- `ExtractRowPixels` (filters.go lines 156-177): `nil` (modelled as
`none`) for a row index outside `[0, Dy)`; otherwise the `width*4` bytes
of the row, read pixel by pixel through `RGBAAt`. -/
def extractRowPixels (img : GoRGBA) (row : ℤ) : Option (List ℕ) :=
  if row < 0 ∨ img.Dy ≤ row then none
  else
    some ((List.range img.Dx.toNat).flatMap (fun x =>
      let c := rgbaAt img (img.minX + (x : ℤ)) (img.minY + row)
      [c.1, c.2.1, c.2.2.1, c.2.2.2]))

/-- `SetRowPixels` (filters.go lines 179-199): a no-op for a row index
outside `[0, Dy)` or a pixel buffer whose length is not `width*4`;
otherwise writes the buffer into the row pixel by pixel through
`SetRGBA`. -/
def setRowPixels (img : GoRGBA) (row : ℤ) (pixels : List ℕ) : GoRGBA :=
  if row < 0 ∨ img.Dy ≤ row ∨ pixels.length ≠ img.Dx.toNat * 4 then img
  else
    (List.range img.Dx.toNat).foldl (fun (acc : GoRGBA) (x : ℕ) =>
      setRGBA acc (img.minX + (x : ℤ)) (img.minY + row)
        (pixels.getD (4 * x) 0) (pixels.getD (4 * x + 1) 0)
        (pixels.getD (4 * x + 2) 0) (pixels.getD (4 * x + 3) 0)) img

/-- Errors produced by the processing pipeline.  Each constructor models
one `fmt.Errorf` site; `rowProcessingFailed` is the wrapping
`"row processing failed: %w"` of the image-level collection loop. -/
inductive PErr where
  | unknownFilter (name : String)
  | extractRowFailed (row : ℕ)
  | rowProcessingFailed (inner : PErr)
deriving DecidableEq

/-- `models.RowJob` (the `Bounds` field, unused by the row workers, is
omitted). -/
structure RowJob where
  imageID : String
  rowIndex : ℕ
  pixels : List ℕ
  width : ℕ
  filter : String
  params : FilterParams

/-- `models.RowResult`.  The Go `Pixels []uint8` field is `nil` on the
error paths of the image processor's row tasks, modelled as `none`; the
`Duration` field (wall-clock time) is not modelled. -/
structure RowResult where
  imageID : String
  rowIndex : ℕ
  pixels : Option (List ℕ)
  error : Option PErr
deriving DecidableEq

/-- Processing step of `rowWorker` (worker.go lines 299-314, the
row-queue pool variant): a registered filter is applied to the row; an
unknown identifier yields the `"unknown filter"` error together with the
original pixel buffer (`result.Pixels = job.Pixels`). -/
def rowWorkerStep (job : RowJob) : RowResult :=
  match FilterRegistry job.filter with
  | some f =>
      { imageID := job.imageID, rowIndex := job.rowIndex
        pixels := some (f job.pixels job.width job.params), error := none }
  | none =>
      { imageID := job.imageID, rowIndex := job.rowIndex
        pixels := some job.pixels, error := some (.unknownFilter job.filter) }

/-- Body of the per-row goroutine spawned by `ProcessSingleImage`
(processor file, lines 144-175): extract the row (a `nil` result becomes
the `"failed to extract pixels"` error), then apply the registered
filter, an unknown identifier yielding the `"unknown filter"` error with
no pixel payload. -/
def rowTaskBody (img : GoRGBA) (jobID filter : String) (params : FilterParams)
    (rowIndex : ℕ) : RowResult :=
  match extractRowPixels img (rowIndex : ℤ) with
  | none =>
      { imageID := jobID, rowIndex := rowIndex
        pixels := none, error := some (.extractRowFailed rowIndex) }
  | some pixels =>
      match FilterRegistry filter with
      | some f =>
          { imageID := jobID, rowIndex := rowIndex
            pixels := some (f pixels img.Dx.toNat params), error := none }
      | none =>
          { imageID := jobID, rowIndex := rowIndex
            pixels := none, error := some (.unknownFilter filter) }

/-- First error in a list of row results, in arrival order: the
collection loop of `ProcessSingleImage` (lines 184-190) returns as soon
as it receives a result with a non-nil error. -/
def firstRowError : List RowResult → Option PErr
  | [] => none
  | r :: rest =>
      match r.error with
      | some e => some e
      | none => firstRowError rest

/-- Outcome of one image job: the error recorded on its
`ProcessingResult`, and whether control reached the encode/save step
(`p.saveImage`, line 198). -/
structure JobOutcome where
  error : Option PErr
  saveReached : Bool
deriving DecidableEq

/-- Row fan-out, join and failure handling of `ProcessSingleImage`
(processor file, lines 137-201).  One row task runs per row index; the
channel delivers their results in an arbitrary arrival order, modelled by
the parameter `order` (a permutation of `0 .. height-1`).  If any
received result carries an error, the job fails with the wrapping
`"row processing failed"` error and returns before the write-back and
save steps; otherwise the rows are written back and the save step is
reached.  (The stat / size-limit / decode steps that precede the fan-out
and the external encoder behind `saveImage` are outside this model.) -/
def processSingleImageCore (img : GoRGBA) (jobID filter : String)
    (params : FilterParams) (order : List ℕ) : JobOutcome :=
  match firstRowError (order.map (rowTaskBody img jobID filter params)) with
  | some e => { error := some (.rowProcessingFailed e), saveReached := false }
  | none => { error := none, saveReached := true }

/-- `models.ProcessingResult`, restricted to the fields the collection
logic inspects (timing and image metadata are not modelled). -/
structure ProcessingResult where
  inputPath : String
  outputPath : String
  error : Option PErr
deriving DecidableEq

/-- One observable event of the orchestrator's collection loop `select`:
either the cancellation channel fires or a result arrives. -/
inductive CollectEvent where
  | cancelled
  | result (r : ProcessingResult)
deriving DecidableEq

/-- Collection loop of `ProcessImages` (processor file, lines 71-85),
driven by the sequence of `select` outcomes: while fewer than `expected`
results have been received, the next event either is the cancellation
(return the partial `results` with `ctx.Err()`, modelled by the `true`
flag) or appends a received result.  `none` models the loop still
blocking when the event trace runs out.  The `false` flag is the `nil`
error of the complete run. -/
def collectResults (expected : ℕ) :
    List CollectEvent → List ProcessingResult → Option (List ProcessingResult × Bool)
  | [], acc => if expected ≤ acc.length then some (acc, false) else none
  | e :: rest, acc =>
    if expected ≤ acc.length then some (acc, false)
    else
      match e with
      | .cancelled => some (acc, true)
      | .result r => collectResults expected rest (acc ++ [r])

/-- `config.Config`, restricted to the fields `ProcessImages` reads when
building jobs. -/
structure Config where
  filter : String
  blurRadius : ℚ
  brightness : ℚ
  contrast : ℚ
  quality : ℤ

/-- `models.ImageJob`. -/
structure ImageJob where
  id : String
  inputPath : String
  outputPath : String
  filter : String
  params : FilterParams

/-- Job construction loop of `ProcessImages` (processor file, lines
54-69): one job per input path, with the sequence-number id `job_i` and
the filter and params copied from the configuration.  The output-path
derivation `generateOutputPath` is string/filepath plumbing over the
configured output directory and is abstracted as the function
`outPath`. -/
def buildJobs (cfg : Config) (outPath : String → String)
    (paths : List String) : List ImageJob :=
  ((List.range paths.length).zip paths).map (fun p =>
    { id := "job_" ++ toString p.1
      inputPath := p.2
      outputPath := outPath p.2
      filter := cfg.filter
      params := { blurRadius := cfg.blurRadius, brightness := cfg.brightness,
                  contrast := cfg.contrast, quality := cfg.quality } })

/-- The channels owned by `WorkerPool` (worker.go). -/
inductive PoolChan where
  | jobQueue
  | resultQueue
  | rowJobQueue
  | quit
deriving DecidableEq

/-- One step of a `Stop` implementation: closing a channel, or the
`wg.Wait()` barrier that waits for all workers to drain. -/
inductive StopStep where
  | close (c : PoolChan)
  | waitWorkers
deriving DecidableEq

/-- The `Stop` of the row-queue pool variant (worker.go lines 200-208),
as the sequence of shutdown steps it performs: it closes `resultQueue`
twice. -/
def stopStepsRowVariant : List StopStep :=
  [.close .quit, .close .jobQueue, .close .rowJobQueue, .waitWorkers,
   .close .resultQueue, .close .resultQueue]

/-- The `Stop` of the delegating pool variant (worker.go lines 48-54). -/
def stopStepsBaseVariant : List StopStep :=
  [.close .quit, .close .jobQueue, .waitWorkers, .close .resultQueue]

/-- Number of times a `Stop` sequence closes the given channel. -/
def countClose (steps : List StopStep) (c : PoolChan) : ℕ :=
  (steps.filter (fun s => s = .close c)).length

/-- C1: the claim states that the contrast filter computes
`clamp((c - 128) * factor + 128, 0, 255)` per RGB channel and is the
identity at factor `1.0`, e.g. `(200,50,10,255)` stays `(200,50,10,255)`.
The code computes `float64(src[i]-128)` with the subtraction in `uint8`,
which wraps for channels below 128: at factor `1.0` the pixel
`(200,50,10,255)` becomes `(200,255,255,255)` (channel `50` wraps to
`178`, giving `178 + 128 = 306`, clamped to `255`), so the filter is not
the identity there. -/
theorem contrast_wrap_bug_at_factor_one :
    applyContrast [200, 50, 10, 255] 1
        { blurRadius := 0, brightness := 0, contrast := 1, quality := 0 } =
      [200, 255, 255, 255] ∧
    applyContrast [200, 50, 10, 255] 1
        { blurRadius := 0, brightness := 0, contrast := 1, quality := 0 } ≠
      [200, 50, 10, 255] := by
  have h : applyContrast [200, 50, 10, 255] 1
      { blurRadius := 0, brightness := 0, contrast := 1, quality := 0 } =
      [200, 255, 255, 255] := by
    norm_num [applyContrast, contrastLoop, contrastByte, clampGo, goUint8Q, max_def, min_def]
    decide
  exact ⟨h, by rw [h]; decide⟩

/-- C8: a pixel buffer whose length is not a multiple of 4 is returned
unchanged by every registered filter, for every width and parameter
set. -/
theorem filters_identity_on_bad_length (src : List ℕ) (width : ℕ)
    (params : FilterParams) (h : src.length % 4 ≠ 0) :
    applyGrayScale src width params = src ∧
    applyBrightness src width params = src ∧
    applyContrast src width params = src ∧
    applyBlur src width params = src := by
  refine ⟨?_, ?_, ?_, ?_⟩ <;>
    simp [applyGrayScale, applyBrightness, applyContrast, applyBlur, h]

/-- Witness for `filters_identity_on_bad_length`: the length-7 buffer
`[1,2,3,4,5,6,7]` is returned unchanged by all four filters. -/
theorem filters_identity_on_bad_length_witness :
    [1, 2, 3, 4, 5, 6, 7].length % 4 ≠ 0 ∧
    (applyGrayScale [1, 2, 3, 4, 5, 6, 7] 3
        { blurRadius := 2, brightness := 2, contrast := 2, quality := 80 } =
      [1, 2, 3, 4, 5, 6, 7] ∧
    applyBrightness [1, 2, 3, 4, 5, 6, 7] 3
        { blurRadius := 2, brightness := 2, contrast := 2, quality := 80 } =
      [1, 2, 3, 4, 5, 6, 7] ∧
    applyContrast [1, 2, 3, 4, 5, 6, 7] 3
        { blurRadius := 2, brightness := 2, contrast := 2, quality := 80 } =
      [1, 2, 3, 4, 5, 6, 7] ∧
    applyBlur [1, 2, 3, 4, 5, 6, 7] 3
        { blurRadius := 2, brightness := 2, contrast := 2, quality := 80 } =
      [1, 2, 3, 4, 5, 6, 7]) :=
  ⟨by decide,
   filters_identity_on_bad_length [1, 2, 3, 4, 5, 6, 7] 3
     { blurRadius := 2, brightness := 2, contrast := 2, quality := 80 } (by decide)⟩

/-- C9: the claim states that a single `Stop()` call closes each pool
channel exactly once and never closes the result channel a second time.
The `Stop` of the row-queue pool variant (worker.go lines 200-208) closes
`resultQueue` twice (a second `close` of a closed Go channel panics at
run time); the delegating variant (lines 48-54) closes it once. -/
theorem stop_closes_result_queue_twice :
    countClose stopStepsRowVariant PoolChan.resultQueue = 2 ∧
    ¬ countClose stopStepsRowVariant PoolChan.resultQueue = 1 ∧
    countClose stopStepsBaseVariant PoolChan.resultQueue = 1 := by decide

/-- Invariant of the collection loop: starting from an accumulator not
yet past the target, a `false`-flagged (no-error) return carries exactly
`expected` results, and every returned result is either carried over from
the accumulator or was delivered by a `result` event of the trace. -/
theorem collectResults_complete_inv (expected : ℕ) :
    ∀ (trace : List CollectEvent) (acc rs : List ProcessingResult),
      acc.length ≤ expected →
      collectResults expected trace acc = some (rs, false) →
      rs.length = expected ∧ ∀ r ∈ rs, r ∈ acc ∨ CollectEvent.result r ∈ trace := by
  intro trace
  induction trace with
  | nil =>
    intro acc rs hle h
    simp only [collectResults] at h
    split at h
    · simp only [Option.some.injEq, Prod.mk.injEq] at h
      obtain ⟨rfl, -⟩ := h
      exact ⟨by omega, fun r hr => Or.inl hr⟩
    · simp at h
  | cons e rest ih =>
    intro acc rs hle h
    simp only [collectResults] at h
    split at h
    · simp only [Option.some.injEq, Prod.mk.injEq] at h
      obtain ⟨rfl, -⟩ := h
      rename_i hlen
      exact ⟨by omega, fun r hr => Or.inl hr⟩
    · rename_i hlen
      cases e with
      | cancelled => simp at h
      | result r =>
        have hacc : (acc ++ [r]).length ≤ expected := by
          simp only [List.length_append, List.length_cons, List.length_nil]
          omega
        obtain ⟨h1, h2⟩ := ih (acc ++ [r]) rs hacc h
        refine ⟨h1, fun r' hr' => ?_⟩
        rcases h2 r' hr' with hmem | hmem
        · rcases List.mem_append.mp hmem with hmem | hmem
          · exact Or.inl hmem
          · simp only [List.mem_singleton] at hmem
            subst hmem
            exact Or.inr (List.mem_cons_self ..)
        · exact Or.inr (List.mem_cons_of_mem _ hmem)

/-- Invariant of the collection loop, cancellation case: a
`true`-flagged (cancelled) return carries at most `expected` results,
each carried over or delivered by the trace. -/
theorem collectResults_cancelled_inv (expected : ℕ) :
    ∀ (trace : List CollectEvent) (acc rs : List ProcessingResult),
      acc.length ≤ expected →
      collectResults expected trace acc = some (rs, true) →
      rs.length ≤ expected ∧ ∀ r ∈ rs, r ∈ acc ∨ CollectEvent.result r ∈ trace := by
  intro trace
  induction trace with
  | nil =>
    intro acc rs hle h
    simp only [collectResults] at h
    split at h
    · simp at h
    · simp at h
  | cons e rest ih =>
    intro acc rs hle h
    simp only [collectResults] at h
    split at h
    · simp at h
    · rename_i hlen
      cases e with
      | cancelled =>
        simp only [Option.some.injEq, Prod.mk.injEq] at h
        obtain ⟨rfl, -⟩ := h
        exact ⟨by omega, fun r hr => Or.inl hr⟩
      | result r =>
        have hacc : (acc ++ [r]).length ≤ expected := by
          simp only [List.length_append, List.length_cons, List.length_nil]
          omega
        obtain ⟨h1, h2⟩ := ih (acc ++ [r]) rs hacc h
        refine ⟨h1, fun r' hr' => ?_⟩
        rcases h2 r' hr' with hmem | hmem
        · rcases List.mem_append.mp hmem with hmem | hmem
          · exact Or.inl hmem
          · simp only [List.mem_singleton] at hmem
            subst hmem
            exact Or.inr (List.mem_cons_self ..)
        · exact Or.inr (List.mem_cons_of_mem _ hmem)

/-- C2: `ProcessImages` builds one job per input path; a run of its
collection loop that terminates without the cancellation event returns
exactly one result per submitted path with the `nil` top-level error,
and a run terminated by cancellation returns a partial result set of
size at most the submitted count consisting only of results actually
delivered by the pool, together with the cancellation error (the `true`
flag). -/
theorem processImages_result_cardinality
    (cfg : Config) (outPath : String → String) (paths : List String)
    (trace : List CollectEvent) (rs : List ProcessingResult) :
    (buildJobs cfg outPath paths).length = paths.length ∧
    (collectResults paths.length trace [] = some (rs, false) →
      rs.length = paths.length) ∧
    (collectResults paths.length trace [] = some (rs, true) →
      rs.length ≤ paths.length ∧ ∀ r ∈ rs, CollectEvent.result r ∈ trace) := by
  refine ⟨?_, ?_, ?_⟩
  · simp [buildJobs]
  · intro h
    exact (collectResults_complete_inv paths.length trace [] rs (by simp) h).1
  · intro h
    obtain ⟨h1, h2⟩ := collectResults_cancelled_inv paths.length trace [] rs (by simp) h
    refine ⟨h1, fun r hr => ?_⟩
    rcases h2 r hr with hmem | hmem
    · simp at hmem
    · exact hmem

/-- Witness for `processImages_result_cardinality`: with two submitted
paths, a trace delivering two results completes with exactly two results,
and a trace delivering one result followed by cancellation returns the
one-element partial set, each element of which was delivered by the
trace. -/
theorem processImages_result_cardinality_witness :
    ([⟨"a.png", "out", none⟩, ⟨"b.png", "out", none⟩] : List ProcessingResult).length =
      (["a.png", "b.png"] : List String).length ∧
    (([⟨"a.png", "out", none⟩] : List ProcessingResult).length ≤
        (["a.png", "b.png"] : List String).length ∧
      ∀ r ∈ ([⟨"a.png", "out", none⟩] : List ProcessingResult),
        CollectEvent.result r ∈
          [CollectEvent.result ⟨"a.png", "out", none⟩, CollectEvent.cancelled]) :=
  ⟨(processImages_result_cardinality ⟨"grayscale", 0, 1, 1, 80⟩ id ["a.png", "b.png"]
      [.result ⟨"a.png", "out", none⟩, .result ⟨"b.png", "out", none⟩]
      [⟨"a.png", "out", none⟩, ⟨"b.png", "out", none⟩]).2.1 (by decide),
   (processImages_result_cardinality ⟨"grayscale", 0, 1, 1, 80⟩ id ["a.png", "b.png"]
      [.result ⟨"a.png", "out", none⟩, .cancelled]
      [⟨"a.png", "out", none⟩]).2.2 (by decide)⟩

/-- If some row result in the list carries an error, the collection loop
finds a first error, and it is the error of one of the listed results. -/
theorem firstRowError_some_of_exists :
    ∀ l : List RowResult, (∃ r ∈ l, r.error ≠ none) →
      ∃ e, firstRowError l = some e ∧ ∃ r ∈ l, r.error = some e := by
  intro l
  induction l with
  | nil => simp
  | cons x rest ih =>
    intro h
    cases hx : x.error with
    | some e =>
      exact ⟨e, by simp [firstRowError, hx], x, List.mem_cons_self .., hx⟩
    | none =>
      obtain ⟨r, hr, hne⟩ := h
      have hrest : ∃ r ∈ rest, r.error ≠ none := by
        rcases List.mem_cons.mp hr with rfl | hmem
        · exact absurd hx hne
        · exact ⟨r, hmem, hne⟩
      obtain ⟨e, he, r', hr', he'⟩ := ih hrest
      exact ⟨e, by simp [firstRowError, hx, he], r', List.mem_cons_of_mem _ hr', he'⟩

/-- C5: if any row task of an image job reports an error, the job's
result error is that row error wrapped as `"row processing failed"`, and
the encode/save step is not reached. -/
theorem row_error_fails_job_without_save
    (img : GoRGBA) (jobID filter : String) (params : FilterParams) (order : List ℕ)
    (h : ∃ r ∈ order, (rowTaskBody img jobID filter params r).error ≠ none) :
    ∃ e, processSingleImageCore img jobID filter params order =
        { error := some (.rowProcessingFailed e), saveReached := false } ∧
      ∃ r ∈ order, (rowTaskBody img jobID filter params r).error = some e := by
  have hex : ∃ rr ∈ order.map (rowTaskBody img jobID filter params), rr.error ≠ none := by
    obtain ⟨r, hr, hne⟩ := h
    exact ⟨_, List.mem_map_of_mem _ hr, hne⟩
  obtain ⟨e, he, rr, hrr, herr⟩ := firstRowError_some_of_exists _ hex
  obtain ⟨r, hr, rfl⟩ := List.mem_map.mp hrr
  exact ⟨e, by simp [processSingleImageCore, he], r, hr, herr⟩

/-- Witness for `row_error_fails_job_without_save`: a 1-by-1 image
processed with the unregistered filter identifier `"sepia"` fails with a
wrapped row error and never reaches the save step. -/
theorem row_error_fails_job_without_save_witness :
    ∃ e, processSingleImageCore ⟨fun j => 0, 4, 0, 0, 1, 1⟩ "job_0" "sepia"
        ⟨0, 1, 1, 80⟩ [0] =
        { error := some (.rowProcessingFailed e), saveReached := false } ∧
      ∃ r ∈ [0], (rowTaskBody ⟨fun j => 0, 4, 0, 0, 1, 1⟩ "job_0" "sepia"
          ⟨0, 1, 1, 80⟩ r).error = some e :=
  row_error_fails_job_without_save _ _ _ _ _ (by decide)

/-- C4: an unregistered filter identifier makes `rowWorker` produce a
`RowResult` that carries the `"unknown filter"` error together with the
original pixel buffer, and makes `ProcessSingleImage` fail with the
wrapped `"row processing failed: unknown filter"` error without reaching
the encode/save step, whatever order the row results arrive in. -/
theorem unknown_filter_fails_job_without_save
    (job : RowJob) (img : GoRGBA) (jobID filter : String) (params : FilterParams)
    (order : List ℕ)
    (hjob : FilterRegistry job.filter = none)
    (hfilter : FilterRegistry filter = none)
    (hDy : 0 < img.Dy)
    (hperm : order.Perm (List.range img.Dy.toNat)) :
    rowWorkerStep job =
      { imageID := job.imageID, rowIndex := job.rowIndex
        pixels := some job.pixels, error := some (.unknownFilter job.filter) } ∧
    processSingleImageCore img jobID filter params order =
      { error := some (.rowProcessingFailed (.unknownFilter filter))
        saveReached := false } := by
  constructor
  · simp [rowWorkerStep, hjob]
  · have hlen : 0 < order.length := by
      rw [hperm.length_eq, List.length_range]
      omega
    cases horder : order with
    | nil => rw [horder] at hlen; simp at hlen
    | cons r rest =>
      have hrmem : r ∈ List.range img.Dy.toNat := by
        rw [← hperm.mem_iff, horder]
        exact List.mem_cons_self ..
      have hrlt : (r : ℤ) < img.Dy := by
        have := List.mem_range.mp hrmem
        omega
      have hguard : ¬(((r : ℕ) : ℤ) < 0 ∨ img.Dy ≤ (r : ℤ)) := by
        push_neg
        exact ⟨by positivity, hrlt⟩
      simp [processSingleImageCore, rowTaskBody, extractRowPixels, if_neg hguard,
        hfilter, firstRowError]

/-- Witness for `unknown_filter_fails_job_without_save`: the concrete row
job with filter `"sepia"` keeps its original four bytes alongside the
unknown-filter error, and a 1-by-1 image job with filter `"sepia"` fails
without saving. -/
theorem unknown_filter_fails_job_without_save_witness :
    rowWorkerStep ⟨"job_0", 0, [9, 8, 7, 6], 1, "sepia", ⟨0, 1, 1, 80⟩⟩ =
      { imageID := "job_0", rowIndex := 0
        pixels := some [9, 8, 7, 6], error := some (.unknownFilter "sepia") } ∧
    processSingleImageCore ⟨fun j => 3, 4, 0, 0, 1, 1⟩ "job_0" "sepia"
        ⟨0, 1, 1, 80⟩ [0] =
      { error := some (.rowProcessingFailed (.unknownFilter "sepia"))
        saveReached := false } :=
  unknown_filter_fails_job_without_save
    ⟨"job_0", 0, [9, 8, 7, 6], 1, "sepia", ⟨0, 1, 1, 80⟩⟩
    ⟨fun j => 3, 4, 0, 0, 1, 1⟩ "job_0" "sepia" ⟨0, 1, 1, 80⟩ [0]
    rfl rfl (by decide) (by simp [GoRGBA.Dy, List.range_succ])

/-- Reading past a four-byte pixel chunk skips it. -/
theorem getD_cons_four (r g b a : ℕ) (rest : List ℕ) (n : ℕ) :
    (r :: g :: b :: a :: rest).getD (n + 4) 0 = rest.getD n 0 := by
  show (r :: g :: b :: a :: rest).getD (n + 1 + 1 + 1 + 1) 0 = rest.getD n 0
  simp [List.getD_cons_succ]

/-- The grayscale loop preserves the buffer length. -/
theorem grayLoop_length (l : List ℕ) : (grayLoop l).length = l.length := by
  induction l using grayLoop.induct <;> simp [grayLoop, *]

/-- Index-wise description of the grayscale loop on a buffer whose length
is a multiple of four: byte `4*i+k` of the output is the alpha byte
`4*i+3` of the input for `k = 3`, and the binary64 gray value of the
pixel's RGB bytes otherwise. -/
theorem grayLoop_getD (l : List ℕ) :
    ∀ i k : ℕ, l.length % 4 = 0 → k < 4 → 4 * i + k < l.length →
      (grayLoop l).getD (4 * i + k) 0 =
        if k = 3 then l.getD (4 * i + 3) 0
        else grayGo (l.getD (4 * i) 0) (l.getD (4 * i + 1) 0) (l.getD (4 * i + 2) 0) := by
  induction l using grayLoop.induct with
  | case1 r g b a rest ih =>
    intro i k h4 hk hlt
    cases i with
    | zero =>
      interval_cases k <;> simp [grayLoop]
    | succ i' =>
      have h4' : rest.length % 4 = 0 := by
        simp only [List.length_cons] at h4
        omega
      have hlt' : 4 * i' + k < rest.length := by
        simp only [List.length_cons] at hlt
        omega
      have H := ih i' k h4' hk hlt'
      have e0 : 4 * (i' + 1) = 4 * i' + 4 := by ring
      have e1 : 4 * (i' + 1) + 1 = (4 * i' + 1) + 4 := by ring
      have e2 : 4 * (i' + 1) + 2 = (4 * i' + 2) + 4 := by ring
      have e3 : 4 * (i' + 1) + 3 = (4 * i' + 3) + 4 := by ring
      have ek : 4 * (i' + 1) + k = (4 * i' + k) + 4 := by ring
      rw [ek, e3, e2, e1, e0, show grayLoop (r :: g :: b :: a :: rest) =
        grayGo r g b :: grayGo r g b :: grayGo r g b :: a :: grayLoop rest from rfl,
        getD_cons_four, getD_cons_four, getD_cons_four, getD_cons_four, getD_cons_four]
      exact H
  | case2 l h =>
    intro i k h4 hk hlt
    rcases l with - | ⟨x, - | ⟨y, - | ⟨z, - | ⟨w, rest⟩⟩⟩⟩
    · simp at hlt
    · simp only [List.length_cons, List.length_nil] at h4
      omega
    · simp only [List.length_cons, List.length_nil] at h4
      omega
    · simp only [List.length_cons, List.length_nil] at h4
      omega
    · exact absurd rfl (h x y z w rest)

/-- C3 (counterexample to the claim as stated): the claim's concrete
scenario asserts `gray2 = floor(0.299*40 + 0.587*50 + 0.114*60) = 47`,
but the value is `48` (exact sum `48.15`, binary64 sum `≈ 48.1499…`), so
the grayscale filter maps the 2-pixel buffer to
`[18,18,18,255,48,48,48,0]`, not `[…,47,47,47,0]`.  Moreover the claim's
formula read in exact arithmetic fails on the code: on the pixel
`(1,1,1)` the exact floor `⌊(299+587+114)/1000⌋ = 1`, while the code's
binary64 evaluation gives `0.9999999999999999`, truncated to `0`. -/
theorem grayscale_spec_concrete_counterexample :
    applyGrayScale [10, 20, 30, 255, 40, 50, 60, 0] 2 ⟨0, 1, 1, 80⟩ =
      [18, 18, 18, 255, 48, 48, 48, 0] ∧
    applyGrayScale [10, 20, 30, 255, 40, 50, 60, 0] 2 ⟨0, 1, 1, 80⟩ ≠
      [18, 18, 18, 255, 47, 47, 47, 0] ∧
    applyGrayScale [1, 1, 1, 9] 1 ⟨0, 1, 1, 80⟩ = [0, 0, 0, 9] ∧
    (299 * 1 + 587 * 1 + 114 * 1) / 1000 = 1 := by
  refine ⟨by decide, ?_, by decide, by decide⟩
  intro h
  exact absurd ((by decide : applyGrayScale [10, 20, 30, 255, 40, 50, 60, 0] 2
    ⟨0, 1, 1, 80⟩ = [18, 18, 18, 255, 48, 48, 48, 0]) ▸ h) (by decide)

/-- C3 (amended): on a buffer whose length is a multiple of four, the
grayscale filter preserves the length, leaves every alpha byte unchanged
and sets each pixel's R, G and B bytes to the binary64 evaluation of
`0.299*R + 0.587*G + 0.114*B` truncated to an integer (`grayGo`), which
can fall one below the exact floor; on the claim's 2-pixel buffer the
gray values are `18` and `48`. -/
theorem grayscale_pixelwise_binary64
    (src : List ℕ) (width : ℕ) (params : FilterParams)
    (h4 : src.length % 4 = 0) :
    (applyGrayScale src width params).length = src.length ∧
    (∀ i k : ℕ, k < 4 → 4 * i + k < src.length →
      (applyGrayScale src width params).getD (4 * i + k) 0 =
        if k = 3 then src.getD (4 * i + 3) 0
        else grayGo (src.getD (4 * i) 0) (src.getD (4 * i + 1) 0)
              (src.getD (4 * i + 2) 0)) ∧
    applyGrayScale [10, 20, 30, 255, 40, 50, 60, 0] 2 params =
      [18, 18, 18, 255, 48, 48, 48, 0] := by
  have hg : applyGrayScale src width params = grayLoop src := by
    simp [applyGrayScale, h4]
  refine ⟨?_, ?_, ?_⟩
  · rw [hg]
    exact grayLoop_length src
  · intro i k hk hlt
    rw [hg]
    exact grayLoop_getD src i k h4 hk hlt
  · have : applyGrayScale [10, 20, 30, 255, 40, 50, 60, 0] 2 params =
        grayLoop [10, 20, 30, 255, 40, 50, 60, 0] := by
      simp [applyGrayScale]
    rw [this]
    decide

/-- Witness for `grayscale_pixelwise_binary64` at the claim's concrete
2-pixel buffer. -/
theorem grayscale_pixelwise_binary64_witness :
    ([10, 20, 30, 255, 40, 50, 60, 0] : List ℕ).length % 4 = 0 ∧
    applyGrayScale [10, 20, 30, 255, 40, 50, 60, 0] 2 ⟨0, 1, 1, 90⟩ =
      [18, 18, 18, 255, 48, 48, 48, 0] :=
  ⟨by decide,
   (grayscale_pixelwise_binary64 [10, 20, 30, 255, 40, 50, 60, 0] 2 ⟨0, 1, 1, 90⟩
     (by decide)).2.2⟩

/-- The bit length of `0` is `0` for every fuel. -/
theorem bitlenAux_zero (fuel : ℕ) : bitlenAux fuel 0 = 0 := by
  cases fuel <;> simp [bitlenAux]

/-- With enough fuel, `bitlenAux` computes the binary digit count:
`2 ^ (b - 1) ≤ n < 2 ^ b` for nonzero `n`. -/
theorem bitlenAux_spec :
    ∀ fuel n : ℕ, n ≤ fuel → n ≠ 0 →
      2 ^ (bitlenAux fuel n - 1) ≤ n ∧ n < 2 ^ bitlenAux fuel n := by
  intro fuel
  induction fuel with
  | zero => intro n hn h0; omega
  | succ fuel ih =>
    intro n hn h0
    simp only [bitlenAux, if_neg h0]
    by_cases h1 : n / 2 = 0
    · have hn1 : n = 1 := by omega
      subst hn1
      norm_num [bitlenAux_zero]
    · obtain ⟨h2, h3⟩ := ih (n / 2) (by omega) h1
      have hb1 : 1 ≤ bitlenAux fuel (n / 2) := by
        by_contra hc
        push_neg at hc
        have hz : bitlenAux fuel (n / 2) = 0 := by omega
        rw [hz] at h3
        simp only [pow_zero, Nat.lt_one_iff] at h3
        exact h1 h3
      set b := bitlenAux fuel (n / 2) with hbdef
      constructor
      · have e : b + 1 - 1 = b := by omega
        rw [e]
        have e2 : (2:ℕ) ^ b = 2 * 2 ^ (b - 1) := by
          conv_lhs => rw [show b = (b - 1) + 1 by omega]
          ring
        rw [e2]
        omega
      · have e2 : (2:ℕ) ^ (b + 1) = 2 * 2 ^ b := by ring
        rw [e2]
        omega

/-- `bitlen` bounds a nonzero number between consecutive powers of two. -/
theorem bitlen_spec (n : ℕ) (h : n ≠ 0) :
    2 ^ (bitlen n - 1) ≤ n ∧ n < 2 ^ bitlen n :=
  bitlenAux_spec n n le_rfl h

/-- A number below `2 ^ k` has bit length at most `k`. -/
theorem bitlen_le_of_lt {n k : ℕ} (h : n < 2 ^ k) : bitlen n ≤ k := by
  by_cases h0 : n = 0
  · subst h0
    rw [bitlen, bitlenAux_zero]
    omega
  · obtain ⟨h1, h2⟩ := bitlen_spec n h0
    by_contra hc
    push_neg at hc
    have : (2:ℕ) ^ k ≤ 2 ^ (bitlen n - 1) := Nat.pow_le_pow_right (by norm_num) (by omega)
    omega

/-- Rounding at bit position `s` moves a value up by less than `2 ^ s`. -/
theorem rheShift_le (n s : ℕ) : rheShift n s ≤ n + 2 ^ s := by
  have ht : n / 2 ^ s * 2 ^ s ≤ n := Nat.div_mul_le_self n (2 ^ s)
  simp only [rheShift]
  split_ifs
  · omega
  · rw [add_mul, one_mul]
    omega
  · omega
  · rw [add_mul, one_mul]
    omega

/-- For values below `2 ^ 64`, binary64 rounding adds at most `2 ^ 11`
(one ulp at that magnitude). -/
theorem flN_le_add (x : ℕ) (hx : x < 2 ^ 64) : flN x ≤ x + 2 ^ 11 := by
  unfold flN
  split_ifs with h
  · omega
  · have hb : bitlen x ≤ 64 := bitlen_le_of_lt hx
    have hs : bitlen x - 53 ≤ 11 := by omega
    have h1 : rheShift x (bitlen x - 53) ≤ x + 2 ^ (bitlen x - 53) := rheShift_le ..
    have h2 : (2:ℕ) ^ (bitlen x - 53) ≤ 2 ^ 11 := Nat.pow_le_pow_right (by norm_num) hs
    omega

/-- The gray value of a pixel with 8-bit channels is an 8-bit value. -/
theorem grayGo_le_255 (r g b : ℕ) (hr : r ≤ 255) (hg : g ≤ 255) (hb : b ≤ 255) :
    grayGo r g b ≤ 255 := by
  unfold grayGo
  have h1 : c299n * r ≤ 5494031257421815260 := by
    calc c299n * r ≤ c299n * 255 := Nat.mul_le_mul_left _ hr
      _ = 5494031257421815260 := by norm_num [c299n]
  have h2 : c587n * g ≤ 10785940963567242480 := by
    calc c587n * g ≤ c587n * 255 := Nat.mul_le_mul_left _ hg
      _ = 10785940963567242480 := by norm_num [c587n]
  have h3 : c114n * b ≤ 2094714258682565175 := by
    calc c114n * b ≤ c114n * 255 := Nat.mul_le_mul_left _ hb
      _ = 2094714258682565175 := by norm_num [c114n]
  have e1 : flN (c299n * r) ≤ c299n * r + 2 ^ 11 := flN_le_add _ (by omega)
  have e2 : flN (c587n * g) ≤ c587n * g + 2 ^ 11 := flN_le_add _ (by omega)
  have e3 : flN (c114n * b) ≤ c114n * b + 2 ^ 11 := flN_le_add _ (by omega)
  have e4 : flN (flN (c299n * r) + flN (c587n * g)) ≤
      flN (c299n * r) + flN (c587n * g) + 2 ^ 11 := flN_le_add _ (by omega)
  have e5 : flN (flN (flN (c299n * r) + flN (c587n * g)) + flN (c114n * b)) ≤
      flN (flN (c299n * r) + flN (c587n * g)) + flN (c114n * b) + 2 ^ 11 :=
    flN_le_add _ (by omega)
  have hT : flN (flN (flN (c299n * r) + flN (c587n * g)) + flN (c114n * b)) <
      256 * 2 ^ 56 := by omega
  have := (Nat.div_lt_iff_lt_mul (show 0 < 2 ^ 56 by norm_num)).mpr hT
  omega

/-- The 256-case check behind the near-idempotence of grayscale: on an
already-gray pixel `(v,v,v)` the second application returns `v` or
`v - 1`. -/
theorem grayGo_diag_cases :
    ∀ v : Fin 256, grayGo v v v = v ∨ grayGo v v v + 1 = (v : ℕ) := by
  set_option maxRecDepth 4000 in decide

/-- On an already-gray 8-bit pixel, a second grayscale application
returns the same value or one less. -/
theorem grayGo_diag (v : ℕ) (h : v ≤ 255) :
    grayGo v v v = v ∨ grayGo v v v + 1 = v := by
  simpa using grayGo_diag_cases ⟨v, by omega⟩

/-- C7 (counterexample to the claim as stated): grayscale is not
idempotent.  On the pixel `(0,0,9)` the first application produces the
gray value `uint8(0.114*9) = uint8(1.026) = 1`; the second application
then computes `uint8(0.299+0.587+0.114) = uint8(0.9999999999999999) = 0`,
so applying the filter twice yields `[0,0,0,7]` while applying it once
yields `[1,1,1,7]`. -/
theorem grayscale_not_idempotent_counterexample :
    applyGrayScale [0, 0, 9, 7] 1 ⟨0, 1, 1, 80⟩ = [1, 1, 1, 7] ∧
    applyGrayScale (applyGrayScale [0, 0, 9, 7] 1 ⟨0, 1, 1, 80⟩) 1 ⟨0, 1, 1, 80⟩ =
      [0, 0, 0, 7] ∧
    applyGrayScale (applyGrayScale [0, 0, 9, 7] 1 ⟨0, 1, 1, 80⟩) 1 ⟨0, 1, 1, 80⟩ ≠
      applyGrayScale [0, 0, 9, 7] 1 ⟨0, 1, 1, 80⟩ :=
  ⟨by decide, by decide, by decide⟩

/-- C7 (amended): applying grayscale twice is ALMOST the same as applying
it once: the buffer length and every alpha byte agree, and each RGB byte
of the double application equals the corresponding byte of the single
application or falls exactly one below it (the binary64 sum
`0.299v + 0.587v + 0.114v` of an already-gray pixel can truncate to
`v - 1`). -/
theorem grayscale_double_apply_drops_at_most_one
    (src : List ℕ) (width : ℕ) (params : FilterParams)
    (h4 : src.length % 4 = 0) (hb : ∀ v ∈ src, v ≤ 255) :
    (applyGrayScale (applyGrayScale src width params) width params).length =
      (applyGrayScale src width params).length ∧
    ∀ i k : ℕ, k < 4 → 4 * i + k < src.length →
      ((applyGrayScale (applyGrayScale src width params) width params).getD
            (4 * i + k) 0 =
          (applyGrayScale src width params).getD (4 * i + k) 0 ∨
        (applyGrayScale (applyGrayScale src width params) width params).getD
            (4 * i + k) 0 + 1 =
          (applyGrayScale src width params).getD (4 * i + k) 0) ∧
      (k = 3 →
        (applyGrayScale (applyGrayScale src width params) width params).getD
            (4 * i + k) 0 =
          (applyGrayScale src width params).getD (4 * i + k) 0) := by
  have hg : applyGrayScale src width params = grayLoop src := by
    simp [applyGrayScale, h4]
  have hlen : (grayLoop src).length = src.length := grayLoop_length src
  have h4' : (grayLoop src).length % 4 = 0 := by rw [hlen]; exact h4
  have hg2 : applyGrayScale (grayLoop src) width params = grayLoop (grayLoop src) := by
    simp [applyGrayScale, h4']
  rw [hg, hg2]
  constructor
  · rw [grayLoop_length]
  · intro i k hk hlt
    have hlt' : 4 * i + k < (grayLoop src).length := by rw [hlen]; exact hlt
    by_cases hk3 : k = 3
    · subst hk3
      have H := grayLoop_getD (grayLoop src) i 3 h4' (by norm_num) hlt'
      rw [if_pos rfl] at H
      exact ⟨Or.inl H, fun _ => H⟩
    · have H2 := grayLoop_getD (grayLoop src) i k h4' hk hlt'
      rw [if_neg hk3] at H2
      have hi0 : 4 * i < src.length := by omega
      have hi1 : 4 * i + 1 < src.length := by omega
      have hi2 : 4 * i + 2 < src.length := by omega
      have O0 := grayLoop_getD src i 0 h4 (by norm_num) (by omega)
      have O1 := grayLoop_getD src i 1 h4 (by norm_num) (by omega)
      have O2 := grayLoop_getD src i 2 h4 (by norm_num) (by omega)
      rw [if_neg (by norm_num)] at O0 O1 O2
      rw [show 4 * i + 0 = 4 * i from by ring] at O0
      rw [O0, O1, O2] at H2
      have Ok := grayLoop_getD src i k h4 hk hlt
      rw [if_neg hk3] at Ok
      have hsrc0 : src.getD (4 * i) 0 ≤ 255 := by
        rw [List.getD_eq_getElem _ _ hi0]
        exact hb _ (List.getElem_mem ..)
      have hsrc1 : src.getD (4 * i + 1) 0 ≤ 255 := by
        rw [List.getD_eq_getElem _ _ hi1]
        exact hb _ (List.getElem_mem ..)
      have hsrc2 : src.getD (4 * i + 2) 0 ≤ 255 := by
        rw [List.getD_eq_getElem _ _ hi2]
        exact hb _ (List.getElem_mem ..)
      have hv255 : grayGo (src.getD (4 * i) 0) (src.getD (4 * i + 1) 0)
          (src.getD (4 * i + 2) 0) ≤ 255 :=
        grayGo_le_255 _ _ _ hsrc0 hsrc1 hsrc2
      refine ⟨?_, fun h3 => absurd h3 hk3⟩
      rcases grayGo_diag _ hv255 with hcase | hcase
      · exact Or.inl (by rw [H2, Ok, hcase])
      · exact Or.inr (by rw [H2, Ok]; exact hcase)

/-- Witness for `grayscale_double_apply_drops_at_most_one` on the buffer
`[0,0,9,7]`. -/
theorem grayscale_double_apply_witness :
    (applyGrayScale (applyGrayScale [0, 0, 9, 7] 1 ⟨0, 1, 1, 80⟩) 1
        ⟨0, 1, 1, 80⟩).length =
      (applyGrayScale [0, 0, 9, 7] 1 ⟨0, 1, 1, 80⟩).length :=
  (grayscale_double_apply_drops_at_most_one [0, 0, 9, 7] 1 ⟨0, 1, 1, 80⟩
    (by decide) (by decide)).1

/-- Go's `int` truncation of a float with floor at most `0` is at most
`0` (for negative values truncation rounds toward zero, staying
nonpositive). -/
theorem goIntTrunc_nonpos (q : ℚ) (h : ⌊q⌋ ≤ 0) : goIntTrunc q ≤ 0 := by
  unfold goIntTrunc
  split_ifs with h0
  · exact h
  · push_neg at h0
    have : 0 ≤ ⌊-q⌋ := Int.floor_nonneg.mpr (by linarith)
    omega

/-- Element access into a mapped range. -/
theorem getD_map_range (n : ℕ) (f : ℕ → ℕ) (i : ℕ) (hi : i < n) :
    ((List.range n).map f).getD i 0 = f i := by
  rw [List.getD_eq_getElem _ _ (by simpa using hi)]
  simp

/-- C6: for a whole-image buffer of size `width*height*4` (with a genuine
image, `width, height ≥ 1`; Go panics with a division by zero at
`width = 0`), blur with `floor(blurRadius) ≤ 0` returns a buffer equal to
the input; with truncated integer radius `r ≥ 1` the output keeps the
length, and every byte — R, G, B and alpha alike — equals the truncated
mean `sum/count` of the in-bounds samples of its `(2r+1)×(2r+1)` window
clipped to the image bounds, and consequently lies between the minimum
and the maximum of those samples. -/
theorem blur_identity_and_window_mean
    (src : List ℕ) (width height : ℕ) (params : FilterParams)
    (hlen : src.length = width * height * 4) (hw : 0 < width) (hh : 0 < height) :
    (⌊params.blurRadius⌋ ≤ 0 → applyBlur src width params = src) ∧
    (∀ r : ℕ, 1 ≤ r → goIntTrunc params.blurRadius = (r : ℤ) →
      (applyBlur src width params).length = src.length ∧
      ∀ i : ℕ, i < src.length →
        (applyBlur src width params).getD i 0 =
          (blurSamples src width height (i / 4 % width) (i / 4 / width) (i % 4) r).sum /
            (blurSamples src width height (i / 4 % width) (i / 4 / width) (i % 4) r).length ∧
        (∀ lo, (blurSamples src width height (i / 4 % width) (i / 4 / width)
              (i % 4) r).min? = some lo →
            lo ≤ (applyBlur src width params).getD i 0) ∧
        (∀ hi, (blurSamples src width height (i / 4 % width) (i / 4 / width)
              (i % 4) r).max? = some hi →
            (applyBlur src width params).getD i 0 ≤ hi)) := by
  have hmod : src.length % 4 = 0 := by
    rw [hlen]
    simp [Nat.mul_mod_left]
  have hheight : src.length / (width * 4) = height := by
    rw [hlen, show width * height * 4 = width * 4 * height from by ring]
    exact Nat.mul_div_cancel_left height (by positivity)
  have hh0 : height ≠ 0 := by omega
  constructor
  · intro hr
    have hr' : goIntTrunc params.blurRadius ≤ 0 := goIntTrunc_nonpos _ hr
    simp [applyBlur, hmod, hheight, hh0, hr']
  · intro r hr1 hreq
    have hradpos : ¬ goIntTrunc params.blurRadius ≤ 0 := by
      rw [hreq]
      omega
    have htonat : (goIntTrunc params.blurRadius).toNat = r := by
      rw [hreq]
      exact Int.toNat_natCast r
    have happ : applyBlur src width params =
        (List.range src.length).map (fun i =>
          if i / 4 / width < height then
            (blurSamples src width height (i / 4 % width) (i / 4 / width) (i % 4) r).sum /
              (blurSamples src width height (i / 4 % width) (i / 4 / width) (i % 4) r).length
          else 0) := by
      simp [applyBlur, hmod, hheight, hh0, hradpos, htonat]
    refine ⟨by rw [happ]; simp, ?_⟩
    intro i hi
    have h1 : i / 4 < width * height := by
      rw [hlen] at hi
      exact (Nat.div_lt_iff_lt_mul (by norm_num)).mpr hi
    have hy : i / 4 / width < height := by
      rw [Nat.div_lt_iff_lt_mul hw]
      calc i / 4 < width * height := h1
        _ = height * width := mul_comm ..
    have hval : (applyBlur src width params).getD i 0 =
        (blurSamples src width height (i / 4 % width) (i / 4 / width) (i % 4) r).sum /
          (blurSamples src width height (i / 4 % width) (i / 4 / width) (i % 4) r).length := by
      rw [happ, getD_map_range _ _ _ hi]
      simp only [if_pos hy]
    refine ⟨hval, ?_, ?_⟩
    · intro lo hlo
      obtain ⟨hmem, hle⟩ := List.min?_eq_some_iff'.mp hlo
      have hlen0 : 0 <
          (blurSamples src width height (i / 4 % width) (i / 4 / width) (i % 4) r).length :=
        List.length_pos.mpr (List.ne_nil_of_mem hmem)
      have hsum :
          (blurSamples src width height (i / 4 % width) (i / 4 / width) (i % 4) r).length * lo ≤
          (blurSamples src width height (i / 4 % width) (i / 4 / width) (i % 4) r).sum := by
        have := List.card_nsmul_le_sum _ lo hle
        simpa [smul_eq_mul] using this
      rw [hval, Nat.le_div_iff_mul_le hlen0]
      calc lo * _ = _ * lo := mul_comm ..
        _ ≤ _ := hsum
    · intro hi' hhi
      obtain ⟨hmem, hge⟩ := List.max?_eq_some_iff'.mp hhi
      have hlen0 : 0 <
          (blurSamples src width height (i / 4 % width) (i / 4 / width) (i % 4) r).length :=
        List.length_pos.mpr (List.ne_nil_of_mem hmem)
      have hsum :
          (blurSamples src width height (i / 4 % width) (i / 4 / width) (i % 4) r).sum ≤
          (blurSamples src width height (i / 4 % width) (i / 4 / width) (i % 4) r).length * hi' := by
        have := List.sum_le_card_nsmul _ hi' hge
        simpa [smul_eq_mul] using this
      rw [hval]
      calc (blurSamples src width height (i / 4 % width) (i / 4 / width) (i % 4) r).sum /
            (blurSamples src width height (i / 4 % width) (i / 4 / width) (i % 4) r).length ≤
          ((blurSamples src width height (i / 4 % width) (i / 4 / width) (i % 4) r).length * hi') /
            (blurSamples src width height (i / 4 % width) (i / 4 / width) (i % 4) r).length :=
            Nat.div_le_div_right hsum
        _ = hi' := Nat.mul_div_cancel_left _ hlen0

/-- Witness for `blur_identity_and_window_mean`: blur with radius `0` on
a 1-by-1 image returns the buffer unchanged, and on a 2-by-1 image with
radius `1` the first output byte is the truncated mean of its window
samples. -/
theorem blur_identity_and_window_mean_witness :
    applyBlur [1, 2, 3, 4] 1 ⟨0, 1, 1, 80⟩ = [1, 2, 3, 4] ∧
    (applyBlur [8, 8, 8, 8, 0, 0, 0, 0] 2 ⟨1, 1, 1, 80⟩).getD 0 0 =
      (blurSamples [8, 8, 8, 8, 0, 0, 0, 0] 2 1 0 0 0 1).sum /
        (blurSamples [8, 8, 8, 8, 0, 0, 0, 0] 2 1 0 0 0 1).length :=
  ⟨(blur_identity_and_window_mean [1, 2, 3, 4] 1 1 ⟨0, 1, 1, 80⟩ (by decide)
      (by decide) (by decide)).1 (by norm_num),
   ((blur_identity_and_window_mean [8, 8, 8, 8, 0, 0, 0, 0] 2 1 ⟨1, 1, 1, 80⟩
      (by decide) (by decide) (by decide)).2 1 (by decide)
      (by norm_num [goIntTrunc])).2 0 (by decide) |>.1⟩

/-- `SetRGBA` never changes the stride. -/
@[simp] theorem setRGBA_stride (img : GoRGBA) (x y : ℤ) (r g b a : ℕ) :
    (setRGBA img x y r g b a).stride = img.stride := by
  unfold setRGBA
  split <;> rfl

/-- `SetRGBA` never changes the rectangle. -/
@[simp] theorem setRGBA_minX (img : GoRGBA) (x y : ℤ) (r g b a : ℕ) :
    (setRGBA img x y r g b a).minX = img.minX := by
  unfold setRGBA
  split <;> rfl

/-- `SetRGBA` never changes the rectangle. -/
@[simp] theorem setRGBA_minY (img : GoRGBA) (x y : ℤ) (r g b a : ℕ) :
    (setRGBA img x y r g b a).minY = img.minY := by
  unfold setRGBA
  split <;> rfl

/-- `SetRGBA` never changes the rectangle. -/
@[simp] theorem setRGBA_maxX (img : GoRGBA) (x y : ℤ) (r g b a : ℕ) :
    (setRGBA img x y r g b a).maxX = img.maxX := by
  unfold setRGBA
  split <;> rfl

/-- `SetRGBA` never changes the rectangle. -/
@[simp] theorem setRGBA_maxY (img : GoRGBA) (x y : ℤ) (r g b a : ℕ) :
    (setRGBA img x y r g b a).maxY = img.maxY := by
  unfold setRGBA
  split <;> rfl

/-- Characterization of the `SetRowPixels` write loop after `n` pixels:
the rectangle and stride are untouched, and the byte at offset `j` is the
buffer byte `j - row*stride` if `j` lies in the first `4*n` bytes of the
target row's slice window, and the original byte otherwise. -/
theorem setRowLoop_pix (img : GoRGBA) (row : ℤ) (pixels : List ℕ)
    (hrow0 : 0 ≤ row) (hrowDy : row < img.Dy) :
    ∀ n : ℕ, (n : ℤ) ≤ img.Dx →
      (((List.range n).foldl (fun (acc : GoRGBA) (x : ℕ) =>
          setRGBA acc (img.minX + (x : ℤ)) (img.minY + row)
            (pixels.getD (4 * x) 0) (pixels.getD (4 * x + 1) 0)
            (pixels.getD (4 * x + 2) 0) (pixels.getD (4 * x + 3) 0)) img).stride =
          img.stride ∧
        ((List.range n).foldl (fun (acc : GoRGBA) (x : ℕ) =>
          setRGBA acc (img.minX + (x : ℤ)) (img.minY + row)
            (pixels.getD (4 * x) 0) (pixels.getD (4 * x + 1) 0)
            (pixels.getD (4 * x + 2) 0) (pixels.getD (4 * x + 3) 0)) img).minX =
          img.minX ∧
        ((List.range n).foldl (fun (acc : GoRGBA) (x : ℕ) =>
          setRGBA acc (img.minX + (x : ℤ)) (img.minY + row)
            (pixels.getD (4 * x) 0) (pixels.getD (4 * x + 1) 0)
            (pixels.getD (4 * x + 2) 0) (pixels.getD (4 * x + 3) 0)) img).minY =
          img.minY ∧
        ((List.range n).foldl (fun (acc : GoRGBA) (x : ℕ) =>
          setRGBA acc (img.minX + (x : ℤ)) (img.minY + row)
            (pixels.getD (4 * x) 0) (pixels.getD (4 * x + 1) 0)
            (pixels.getD (4 * x + 2) 0) (pixels.getD (4 * x + 3) 0)) img).maxX =
          img.maxX ∧
        ((List.range n).foldl (fun (acc : GoRGBA) (x : ℕ) =>
          setRGBA acc (img.minX + (x : ℤ)) (img.minY + row)
            (pixels.getD (4 * x) 0) (pixels.getD (4 * x + 1) 0)
            (pixels.getD (4 * x + 2) 0) (pixels.getD (4 * x + 3) 0)) img).maxY =
          img.maxY) ∧
      ∀ j : ℤ,
        ((List.range n).foldl (fun (acc : GoRGBA) (x : ℕ) =>
          setRGBA acc (img.minX + (x : ℤ)) (img.minY + row)
            (pixels.getD (4 * x) 0) (pixels.getD (4 * x + 1) 0)
            (pixels.getD (4 * x + 2) 0) (pixels.getD (4 * x + 3) 0)) img).pix j =
          if row * img.stride ≤ j ∧ j < row * img.stride + 4 * n then
            pixels.getD (j - row * img.stride).toNat 0
          else img.pix j := by
  intro n
  induction n with
  | zero =>
    intro hn
    refine ⟨by simp, fun j => ?_⟩
    rw [if_neg (by omega)]
    simp
  | succ n ih =>
    intro hn
    have hn' : (n : ℤ) ≤ img.Dx := by
      push_cast at hn ⊢
      omega
    obtain ⟨⟨ihs, ihx, ihy, ihX, ihY⟩, ihpix⟩ := ih hn'
    rw [List.range_succ, List.foldl_append, List.foldl_cons, List.foldl_nil] at *
    have hDx : img.Dx = img.maxX - img.minX := rfl
    have hDy : img.Dy = img.maxY - img.minY := rfl
    have hncast : ((n + 1 : ℕ) : ℤ) = (n : ℤ) + 1 := by push_cast; ring
    have hrect : inRect ((List.range n).foldl (fun (acc : GoRGBA) (x : ℕ) =>
        setRGBA acc (img.minX + (x : ℤ)) (img.minY + row)
          (pixels.getD (4 * x) 0) (pixels.getD (4 * x + 1) 0)
          (pixels.getD (4 * x + 2) 0) (pixels.getD (4 * x + 3) 0)) img)
        (img.minX + (n : ℤ)) (img.minY + row) = true := by
      simp only [inRect, ihx, ihy, ihX, ihY, Bool.and_eq_true, decide_eq_true_eq]
      rw [hncast] at hn
      rw [hDx] at hn
      rw [hDy] at hrowDy
      refine ⟨⟨⟨by omega, by omega⟩, by omega⟩, by omega⟩
    have ho : pixOffset ((List.range n).foldl (fun (acc : GoRGBA) (x : ℕ) =>
        setRGBA acc (img.minX + (x : ℤ)) (img.minY + row)
          (pixels.getD (4 * x) 0) (pixels.getD (4 * x + 1) 0)
          (pixels.getD (4 * x + 2) 0) (pixels.getD (4 * x + 3) 0)) img)
        (img.minX + (n : ℤ)) (img.minY + row) = row * img.stride + 4 * (n : ℤ) := by
      simp only [pixOffset, ihs, ihx, ihy]
      ring
    refine ⟨?_, fun j => ?_⟩
    · simp only [setRGBA_stride, setRGBA_minX, setRGBA_minY, setRGBA_maxX, setRGBA_maxY]
      exact ⟨ihs, ihx, ihy, ihX, ihY⟩
    · rw [setRGBA, if_pos hrect]
      simp only [ho]
      by_cases h0 : j = row * img.stride + 4 * (n : ℤ)
      · rw [if_pos h0]
        rw [if_pos (by push_cast; omega)]
        have : (j - row * img.stride).toNat = 4 * n := by omega
        rw [this]
      · rw [if_neg h0]
        by_cases h1 : j = row * img.stride + 4 * (n : ℤ) + 1
        · rw [if_pos h1]
          rw [if_pos (by push_cast; omega)]
          have : (j - row * img.stride).toNat = 4 * n + 1 := by omega
          rw [this]
        · rw [if_neg h1]
          by_cases h2 : j = row * img.stride + 4 * (n : ℤ) + 2
          · rw [if_pos h2]
            rw [if_pos (by push_cast; omega)]
            have : (j - row * img.stride).toNat = 4 * n + 2 := by omega
            rw [this]
          · rw [if_neg h2]
            by_cases h3 : j = row * img.stride + 4 * (n : ℤ) + 3
            · rw [if_pos h3]
              rw [if_pos (by push_cast; omega)]
              have : (j - row * img.stride).toNat = 4 * n + 3 := by omega
              rw [this]
            · rw [if_neg h3]
              rw [ihpix j]
              by_cases hwin : row * img.stride ≤ j ∧ j < row * img.stride + 4 * (n : ℤ)
              · rw [if_pos hwin, if_pos (by push_cast at hwin ⊢; omega)]
              · rw [if_neg hwin, if_neg (by push_cast at hwin ⊢; omega)]

/-- Pointwise-equal functions give equal flat maps. -/
theorem flatMap_congr {α β : Type} (l : List α) (f g : α → List β)
    (h : ∀ a ∈ l, f a = g a) : l.flatMap f = l.flatMap g := by
  induction l with
  | nil => rfl
  | cons x rest ih =>
    rw [List.flatMap_cons, List.flatMap_cons, h x (List.mem_cons_self ..),
      ih (fun a ha => h a (List.mem_cons_of_mem _ ha))]

/-- Reassembling a buffer of `4*n` bytes from its `n` four-byte chunks
gives the buffer back. -/
theorem range_flatMap_chunks :
    ∀ (n : ℕ) (p : List ℕ), p.length = 4 * n →
      (List.range n).flatMap (fun x =>
        [p.getD (4 * x) 0, p.getD (4 * x + 1) 0, p.getD (4 * x + 2) 0,
         p.getD (4 * x + 3) 0]) = p := by
  intro n
  induction n with
  | zero =>
    intro p hp
    simp only [Nat.mul_zero] at hp
    rw [List.eq_nil_of_length_eq_zero hp]
    rfl
  | succ n ih =>
    intro p hp
    rcases p with - | ⟨a, - | ⟨b, - | ⟨c, - | ⟨d, rest⟩⟩⟩⟩
    · simp at hp
    · simp only [List.length_cons, List.length_nil] at hp
      omega
    · simp only [List.length_cons, List.length_nil] at hp
      omega
    · simp only [List.length_cons, List.length_nil] at hp
      omega
    · have hrest : rest.length = 4 * n := by
        simp only [List.length_cons] at hp
        omega
      rw [List.range_succ_eq_map, List.flatMap_cons, List.flatMap_map]
      have hhead : [(a :: b :: c :: d :: rest).getD (4 * 0) 0,
          (a :: b :: c :: d :: rest).getD (4 * 0 + 1) 0,
          (a :: b :: c :: d :: rest).getD (4 * 0 + 2) 0,
          (a :: b :: c :: d :: rest).getD (4 * 0 + 3) 0] = [a, b, c, d] := by
        norm_num
      rw [hhead]
      have hcong := flatMap_congr (List.range n)
        (fun x => [(a :: b :: c :: d :: rest).getD (4 * (x + 1)) 0,
          (a :: b :: c :: d :: rest).getD (4 * (x + 1) + 1) 0,
          (a :: b :: c :: d :: rest).getD (4 * (x + 1) + 2) 0,
          (a :: b :: c :: d :: rest).getD (4 * (x + 1) + 3) 0])
        (fun x => [rest.getD (4 * x) 0, rest.getD (4 * x + 1) 0,
          rest.getD (4 * x + 2) 0, rest.getD (4 * x + 3) 0])
        (fun x hx => by
          dsimp only
          have e0 : 4 * (x + 1) = 4 * x + 4 := by ring
          have e1 : 4 * (x + 1) + 1 = (4 * x + 1) + 4 := by ring
          have e2 : 4 * (x + 1) + 2 = (4 * x + 2) + 4 := by ring
          have e3 : 4 * (x + 1) + 3 = (4 * x + 3) + 4 := by ring
          rw [e3, e2, e1, e0, getD_cons_four, getD_cons_four, getD_cons_four,
            getD_cons_four])
      rw [hcong, ih rest hrest]
      rfl

/-- C10: row write-back followed by row extraction round-trips.  For an
RGBA image with the canonical stride `4*Dx` (as produced by
`image.NewRGBA`), a nonempty rectangle, a row index inside `[0, Dy)` and
a pixel slice of length `Dx*4`, `ExtractRowPixels` after `SetRowPixels`
returns exactly the written slice, and every other row reads back
unchanged. -/
theorem setRow_extract_roundtrip
    (img : GoRGBA) (row : ℤ) (p : List ℕ)
    (hstride : img.stride = 4 * img.Dx) (hDx0 : 0 ≤ img.Dx)
    (hrow0 : 0 ≤ row) (hrowDy : row < img.Dy)
    (hp : p.length = img.Dx.toNat * 4) :
    extractRowPixels (setRowPixels img row p) row = some p ∧
    ∀ r' : ℤ, r' ≠ row →
      extractRowPixels (setRowPixels img row p) r' = extractRowPixels img r' := by
  have hguard : ¬(row < 0 ∨ img.Dy ≤ row ∨ p.length ≠ img.Dx.toNat * 4) := by
    push_neg
    exact ⟨by omega, by omega, hp⟩
  have hcastW : ((img.Dx.toNat : ℕ) : ℤ) ≤ img.Dx := by omega
  obtain ⟨⟨ms, mx, my, mX, mY⟩, mpix⟩ :=
    setRowLoop_pix img row p hrow0 hrowDy img.Dx.toNat hcastW
  set M := (List.range img.Dx.toNat).foldl (fun (acc : GoRGBA) (x : ℕ) =>
      setRGBA acc (img.minX + (x : ℤ)) (img.minY + row)
        (p.getD (4 * x) 0) (p.getD (4 * x + 1) 0)
        (p.getD (4 * x + 2) 0) (p.getD (4 * x + 3) 0)) img with hM
  have hset : setRowPixels img row p = M := by
    rw [setRowPixels, if_neg hguard, hM]
  have mDy : M.Dy = img.Dy := by
    unfold GoRGBA.Dy
    rw [mY, my]
  have mDx : M.Dx = img.Dx := by
    unfold GoRGBA.Dx
    rw [mX, mx]
  have hDxe : img.Dx = img.maxX - img.minX := rfl
  have hDye : img.Dy = img.maxY - img.minY := rfl
  rw [hset]
  constructor
  · simp only [extractRowPixels, mDy, mDx]
    rw [if_neg (by omega)]
    congr 1
    refine Eq.trans (flatMap_congr _ _ (fun x =>
        [p.getD (4 * x) 0, p.getD (4 * x + 1) 0, p.getD (4 * x + 2) 0,
         p.getD (4 * x + 3) 0]) ?_) (range_flatMap_chunks img.Dx.toNat p (by omega))
    intro x hx
    have hxlt : x < img.Dx.toNat := List.mem_range.mp hx
    have hxltZ : (x : ℤ) < img.Dx := by omega
    dsimp only
    have hrect : inRect M (M.minX + (x : ℤ)) (M.minY + row) = true := by
      simp only [inRect, mx, my, mX, mY, Bool.and_eq_true, decide_eq_true_eq]
      rw [hDxe] at hxltZ
      rw [hDye] at hrowDy
      refine ⟨⟨⟨by omega, by omega⟩, by omega⟩, by omega⟩
    rw [rgbaAt, if_pos hrect]
    have ho : pixOffset M (M.minX + (x : ℤ)) (M.minY + row) =
        row * img.stride + 4 * (x : ℤ) := by
      simp only [pixOffset, ms, mx, my]
      ring
    dsimp only
    rw [ho]
    generalize hB : row * img.stride = B at mpix ⊢
    rw [mpix, mpix, mpix, mpix]
    rw [if_pos (by omega), if_pos (by omega), if_pos (by omega), if_pos (by omega)]
    have i0 : (B + 4 * (x : ℤ) - B).toNat = 4 * x := by omega
    have i1 : (B + 4 * (x : ℤ) + 1 - B).toNat = 4 * x + 1 := by omega
    have i2 : (B + 4 * (x : ℤ) + 2 - B).toNat = 4 * x + 2 := by omega
    have i3 : (B + 4 * (x : ℤ) + 3 - B).toNat = 4 * x + 3 := by omega
    rw [i0, i1, i2, i3]
  · intro r' hne
    by_cases hr' : r' < 0 ∨ img.Dy ≤ r'
    · simp only [extractRowPixels, mDy, mDx]
      rw [if_pos hr', if_pos hr']
    · push_neg at hr'
      simp only [extractRowPixels, mDy, mDx]
      rw [if_neg (by omega), if_neg (by omega)]
      congr 1
      apply flatMap_congr
      intro x hx
      have hxlt : x < img.Dx.toNat := List.mem_range.mp hx
      have hxltZ : (x : ℤ) < img.Dx := by omega
      have hrect : inRect M (M.minX + (x : ℤ)) (M.minY + r') = true := by
        simp only [inRect, mx, my, mX, mY, Bool.and_eq_true, decide_eq_true_eq]
        rw [hDxe] at hxltZ
        rw [hDye] at hr'
        refine ⟨⟨⟨by omega, by omega⟩, by omega⟩, by omega⟩
      have hrect2 : inRect img (img.minX + (x : ℤ)) (img.minY + r') = true := by
        simp only [inRect, Bool.and_eq_true, decide_eq_true_eq]
        rw [hDxe] at hxltZ
        rw [hDye] at hr'
        refine ⟨⟨⟨by omega, by omega⟩, by omega⟩, by omega⟩
      rw [rgbaAt, if_pos hrect, rgbaAt, if_pos hrect2]
      have ho : pixOffset M (M.minX + (x : ℤ)) (M.minY + r') =
          r' * img.stride + 4 * (x : ℤ) := by
        simp only [pixOffset, ms, mx, my]
        ring
      have ho2 : pixOffset img (img.minX + (x : ℤ)) (img.minY + r') =
          r' * img.stride + 4 * (x : ℤ) := by
        simp only [pixOffset]
        ring
      dsimp only
      rw [ho, ho2]
      have hout : ∀ m : ℤ, 0 ≤ m → m < 4 * (img.Dx.toNat : ℤ) →
          ¬(row * img.stride ≤ r' * img.stride + m ∧
            r' * img.stride + m < row * img.stride + 4 * (img.Dx.toNat : ℤ)) := by
        intro m hm0 hmlt
        have hW : img.stride = 4 * (img.Dx.toNat : ℤ) := by
          rw [hstride]
          omega
        rw [hW]
        generalize hWv : (4 * (img.Dx.toNat : ℤ)) = W at hm0 hmlt ⊢
        have hW0 : 0 ≤ W := by omega
        rcases lt_or_gt_of_ne hne with hlt | hgt
        · rintro ⟨hc1, -⟩
          have hd : r' + 1 ≤ row := by omega
          have : (r' + 1) * W ≤ row * W := by
            exact mul_le_mul_of_nonneg_right (by omega) hW0
          rw [add_mul, one_mul] at this
          omega
        · rintro ⟨-, hc2⟩
          have hd : row + 1 ≤ r' := by omega
          have : (row + 1) * W ≤ r' * W := by
            exact mul_le_mul_of_nonneg_right (by omega) hW0
          rw [add_mul, one_mul] at this
          omega
      rw [mpix, mpix, mpix, mpix]
      rw [if_neg (by
            have := hout (4 * (x : ℤ)) (by omega) (by omega)
            omega),
          if_neg (by
            have := hout (4 * (x : ℤ) + 1) (by omega) (by omega)
            omega),
          if_neg (by
            have := hout (4 * (x : ℤ) + 2) (by omega) (by omega)
            omega),
          if_neg (by
            have := hout (4 * (x : ℤ) + 3) (by omega) (by omega)
            omega)]

/-- Witness for `setRow_extract_roundtrip` on a zeroed 2-by-2 image:
writing `[9,8,7,6,5,4,3,2]` into row 0 reads back exactly, and row 1 is
untouched. -/
theorem setRow_extract_roundtrip_witness :
    extractRowPixels
        (setRowPixels ⟨fun j => 0, 8, 0, 0, 2, 2⟩ 0 [9, 8, 7, 6, 5, 4, 3, 2]) 0 =
      some [9, 8, 7, 6, 5, 4, 3, 2] ∧
    extractRowPixels
        (setRowPixels ⟨fun j => 0, 8, 0, 0, 2, 2⟩ 0 [9, 8, 7, 6, 5, 4, 3, 2]) 1 =
      extractRowPixels ⟨fun j => 0, 8, 0, 0, 2, 2⟩ 1 :=
  ⟨(setRow_extract_roundtrip ⟨fun j => 0, 8, 0, 0, 2, 2⟩ 0 [9, 8, 7, 6, 5, 4, 3, 2]
      (by decide) (by decide) (by decide) (by decide) (by decide)).1,
   (setRow_extract_roundtrip ⟨fun j => 0, 8, 0, 0, 2, 2⟩ 0 [9, 8, 7, 6, 5, 4, 3, 2]
      (by decide) (by decide) (by decide) (by decide) (by decide)).2 1 (by decide)⟩
